import Mathlib

/-!
# Verification of the riscvemu bare-metal runtime

Shallow embedding of the C/assembly bare-metal runtime of the riscvemu
repository (boot sequence, trap vector table, trap handlers, timer rearm
protocol, CSR bit-set helpers, newlib heap stub), together with theorems
settling the specification claims about it.

Machine integers are modelled as `Nat` with explicit reduction modulo
`2 ^ 64` (for the 64-bit memory-mapped timer registers) or `2 ^ 32`
(for the rv32 CSRs and pointers) at the points where the C code performs
fixed-width arithmetic.
-/

set_option autoImplicit false

/-! ## Timer rearm protocol (interrupts.c / interrupts.h)

The memory-mapped timer consists of a free-running 64-bit counter
`mtime` (at MTIME_BASE) and a 64-bit comparator `mtimecmp`
(at MTIMECMP_BASE).  `TimerState` models the two device registers,
plus the character-sink output log written by the handlers' `printf`
calls (writes to the output port).
-/

/-- The two 64-bit memory-mapped timer registers, plus the output log of
the character device (the target of `printf`). -/
structure TimerState where
  mtime : Nat
  mtimecmp : Nat
  out : List String
  deriving Repr, DecidableEq

/-- Embedding of `set_timeout` (interrupts.c):
`*mtimecmp = *mtime + period;` where both registers are `uint64_t`,
so the sum wraps modulo `2 ^ 64`. -/
def set_timeout (period : Nat) (st : TimerState) : TimerState :=
  { st with mtimecmp := (st.mtime + period) % 2 ^ 64 }

/-- The fixed rearm period passed by `_timer_isr` in trap.c:
`set_timeout(2000000);`. -/
def TIMER_PERIOD : Nat := 2000000

/-- Embedding of `_timer_isr` (trap.c): prints "tick\n", rearms the
comparator with the fixed period, then executes `mret` (returns to the
interrupted context, which is the identity on the timer state). -/
def _timer_isr (st : TimerState) : TimerState :=
  set_timeout TIMER_PERIOD { st with out := st.out ++ ["tick\n"] }

/-- One timer trap: the trap fires at a moment when the free-running
counter reads `m`, and the handler `_timer_isr` runs with that counter
value. -/
def timerTrap (m : Nat) (st : TimerState) : TimerState :=
  _timer_isr { st with mtime := m }

/-- The comparator values observed after each of a sequence of timer
traps, where `ms` lists the counter value sampled at each trap. -/
def timerTrace : List Nat → TimerState → List Nat
  | [], _ => []
  | m :: ms, st => (timerTrap m st).mtimecmp :: timerTrace ms (timerTrap m st)

/-- Side condition for a sequence of timer traps: each trap only fires
once the counter has reached the current comparator value
(the hardware fire condition is `mtime >= mtimecmp`), and the rearm
arithmetic does not wrap modulo `2 ^ 64`. -/
def firesOK : List Nat → TimerState → Bool
  | [], _ => true
  | m :: ms, st =>
    st.mtimecmp ≤ m && m + TIMER_PERIOD < 2 ^ 64 && firesOK ms (timerTrap m st)

/-- A Boolean strict-increase check on a list of naturals. -/
def chainLt : List Nat → Bool
  | [] => true
  | [_] => true
  | a :: b :: rest => a < b && chainLt (b :: rest)

theorem set_timeout_mtimecmp (period : Nat) (st : TimerState) :
    (set_timeout period st).mtimecmp = (st.mtime + period) % 2 ^ 64 := rfl

theorem set_timeout_mtime (period : Nat) (st : TimerState) :
    (set_timeout period st).mtime = st.mtime := rfl

/-- C1: for every period `p ≥ 0` (including `p = 0`), `set_timeout p`
writes to the comparator register exactly the sampled counter value
plus `p` (as 64-bit wrap-around arithmetic, the only reduction the
`uint64_t` type imposes), with no validation or clamping of `p`: in
particular whenever the sum fits in 64 bits the comparator holds the
exact sum, and the counter itself and the rest of the state are
untouched. -/
theorem set_timeout_spec (p : Nat) (st : TimerState) :
    (set_timeout p st).mtimecmp = (st.mtime + p) % 2 ^ 64 ∧
    (st.mtime + p < 2 ^ 64 → (set_timeout p st).mtimecmp = st.mtime + p) ∧
    (set_timeout p st).mtime = st.mtime ∧
    (set_timeout p st).out = st.out := by
  refine ⟨rfl, fun h => ?_, rfl, rfl⟩
  show (st.mtime + p) % 2 ^ 64 = st.mtime + p
  exact Nat.mod_eq_of_lt h

/-- C1 witness: concrete instance at `p = 0`. -/
theorem set_timeout_spec_witness :
    (set_timeout 0 ⟨100, 7, []⟩).mtimecmp = 100 + 0 := by
  have h := set_timeout_spec 0 ⟨100, 7, []⟩
  exact h.2.1 (by decide)

/-- C4: the timer interrupt handler rearms the comparator on every
invocation before returning (its comparator effect is exactly that of
`set_timeout TIMER_PERIOD`), and consequently over any sequence of
consecutive timer traps — each firing only once the counter has reached
the current comparator, with non-wrapping arithmetic — the comparator
register strictly increases at every trap. -/
theorem timer_rearm_spec :
    (∀ st : TimerState, (_timer_isr st).mtimecmp = (st.mtime + TIMER_PERIOD) % 2 ^ 64) ∧
    ∀ (ms : List Nat) (st : TimerState), firesOK ms st = true →
      chainLt (st.mtimecmp :: timerTrace ms st) = true := by
  constructor
  · intro st; rfl
  · intro ms
    induction ms with
    | nil => intro st _; rfl
    | cons m rest ih =>
      intro st h
      simp only [firesOK, Bool.and_eq_true, decide_eq_true_eq] at h
      obtain ⟨⟨h1, h2⟩, h3⟩ := h
      have hcmp : (timerTrap m st).mtimecmp = m + TIMER_PERIOD := by
        show (m + TIMER_PERIOD) % 2 ^ 64 = m + TIMER_PERIOD
        exact Nat.mod_eq_of_lt h2
      have htrace := ih (timerTrap m st) h3
      simp only [timerTrace, chainLt, Bool.and_eq_true, decide_eq_true_eq]
      refine ⟨?_, htrace⟩
      have hper : TIMER_PERIOD = 2000000 := rfl
      omega

/-- C4 witness: two consecutive timer traps from a concrete state;
the comparator advances strictly at each. -/
theorem timer_rearm_spec_witness :
    chainLt ((10 : Nat) :: timerTrace [10, 2000010] ⟨0, 10, []⟩) = true := by
  exact timer_rearm_spec.2 [10, 2000010] ⟨0, 10, []⟩ (by decide)

/-! ## Trap classifier (trap.c `_exception_handler`)

The handler reads `mcause`, switches on the synchronous cause codes,
and either falls through to `asm("mret")` (modelled as returning
`some` of the machine state at the trap-return instruction) or spins
in `while(1);` (modelled with explicit fuel that is always exhausted,
returning `none`).  The CSRs are the rv32 machine-mode registers the
runtime touches. -/

/-- The machine-mode CSRs accessed by the runtime (csr.h):
mstatus (0x300), mie (0x304), mepc (0x341), mcause (0x342). -/
structure CsrState where
  mstatus : Nat
  mie : Nat
  mepc : Nat
  mcause : Nat
  deriving Repr, DecidableEq

def MCAUSE_INSTRUCTION_ADDRESS_MISALIGNED : Nat := 0
def MCAUSE_INSTRUCTION_ACCESS_FAULT : Nat := 1
def MCAUSE_ILLEGAL_INSTRUCTION : Nat := 2
def MCAUSE_BREAKPOINT : Nat := 3
def MCAUSE_LOAD_ADDRESS_MISALIGNED : Nat := 4
def MCAUSE_LOAD_ACCESS_FAULT : Nat := 5
def MCAUSE_STORE_ADDRESS_MISALIGNED : Nat := 6
def MCAUSE_STORE_ACCESS_FAULT : Nat := 7
def MCAUSE_MMODE_ECALL : Nat := 11

/-- Embedding of `while(1);`: for every finite amount of fuel the loop
consumes it all and never produces a result. -/
def haltLoop (fuel : Nat) : Option CsrState :=
  match fuel with
  | 0 => none
  | n + 1 => haltLoop n

/-- Embedding of `_exception_handler` (trap.c).  `some s` means the
handler reached the `asm("mret")` trap-return with machine state `s`;
`none` means the given fuel was exhausted without reaching it.  The
ecall arm performs `write_csr(CSR_MEPC, read_csr(CSR_MEPC) + 4)` in
32-bit arithmetic; every other recognised cause arm is a bare `break`;
the `default` arm is `while(1);`. -/
def _exception_handler (fuel : Nat) (s : CsrState) : Option CsrState :=
  if s.mcause = MCAUSE_INSTRUCTION_ADDRESS_MISALIGNED then some s
  else if s.mcause = MCAUSE_INSTRUCTION_ACCESS_FAULT then some s
  else if s.mcause = MCAUSE_ILLEGAL_INSTRUCTION then some s
  else if s.mcause = MCAUSE_BREAKPOINT then some s
  else if s.mcause = MCAUSE_LOAD_ADDRESS_MISALIGNED then some s
  else if s.mcause = MCAUSE_LOAD_ACCESS_FAULT then some s
  else if s.mcause = MCAUSE_STORE_ADDRESS_MISALIGNED then some s
  else if s.mcause = MCAUSE_STORE_ACCESS_FAULT then some s
  else if s.mcause = MCAUSE_MMODE_ECALL then
    some { s with mepc := (s.mepc + 4) % 2 ^ 32 }
  else haltLoop fuel

/-- The synchronous cause codes recognised by the handler's switch. -/
def definedCauses : List Nat := [0, 1, 2, 3, 4, 5, 6, 7, 11]

theorem haltLoop_eq_none (fuel : Nat) : haltLoop fuel = none := by
  induction fuel with
  | zero => rfl
  | succ n ih => exact ih

/-- C2: on a machine-mode environment call (`mcause = 11`), the handler
reaches the trap-return with `mepc` advanced by exactly 4 (the sum not
having wrapped the 32-bit register), and every other privileged
register — mstatus, mie, mcause — bit-for-bit unchanged. -/
theorem ecall_advances_mepc (fuel : Nat) (s : CsrState)
    (hc : s.mcause = MCAUSE_MMODE_ECALL) (hno : s.mepc + 4 < 2 ^ 32) :
    ∃ s' : CsrState, _exception_handler fuel s = some s' ∧
      s'.mepc = s.mepc + 4 ∧
      s'.mstatus = s.mstatus ∧ s'.mie = s.mie ∧ s'.mcause = s.mcause := by
  refine ⟨{ s with mepc := (s.mepc + 4) % 2 ^ 32 }, ?_, ?_, rfl, rfl, rfl⟩
  · simp [_exception_handler, hc, MCAUSE_MMODE_ECALL,
      MCAUSE_INSTRUCTION_ADDRESS_MISALIGNED, MCAUSE_INSTRUCTION_ACCESS_FAULT,
      MCAUSE_ILLEGAL_INSTRUCTION, MCAUSE_BREAKPOINT,
      MCAUSE_LOAD_ADDRESS_MISALIGNED, MCAUSE_LOAD_ACCESS_FAULT,
      MCAUSE_STORE_ADDRESS_MISALIGNED, MCAUSE_STORE_ACCESS_FAULT]
  · exact Nat.mod_eq_of_lt hno

/-- C2 witness: a concrete ecall trap state. -/
theorem ecall_advances_mepc_witness :
    ∃ s' : CsrState, _exception_handler 0 ⟨5, 6, 1000, 11⟩ = some s' ∧
      s'.mepc = 1000 + 4 ∧
      s'.mstatus = 5 ∧ s'.mie = 6 ∧ s'.mcause = 11 := by
  exact ecall_advances_mepc 0 ⟨5, 6, 1000, 11⟩ (by decide) (by decide)

/-- C3: for every `mcause` value outside the recognised synchronous
enumeration `{0,1,2,3,4,5,6,7,11}` (interrupt bit clear), the handler
never reaches the trap-return instruction: for every finite amount of
fuel the `default: while(1);` loop exhausts it and the machine state is
never resumed. -/
theorem unknown_cause_halts (fuel : Nat) (s : CsrState)
    (_hint : s.mcause.testBit 31 = false)
    (hc : s.mcause ∉ definedCauses) :
    _exception_handler fuel s = none := by
  simp only [definedCauses, List.mem_cons, List.not_mem_nil, or_false, not_or] at hc
  obtain ⟨h0, h1, h2, h3, h4, h5, h6, h7, h11⟩ := hc
  simp only [_exception_handler, MCAUSE_INSTRUCTION_ADDRESS_MISALIGNED,
    MCAUSE_INSTRUCTION_ACCESS_FAULT, MCAUSE_ILLEGAL_INSTRUCTION,
    MCAUSE_BREAKPOINT, MCAUSE_LOAD_ADDRESS_MISALIGNED,
    MCAUSE_LOAD_ACCESS_FAULT, MCAUSE_STORE_ADDRESS_MISALIGNED,
    MCAUSE_STORE_ACCESS_FAULT, MCAUSE_MMODE_ECALL,
    h0, h1, h2, h3, h4, h5, h6, h7, h11, if_false]
  exact haltLoop_eq_none fuel

/-- C3 witness: an out-of-range cause value (8) with plenty of fuel
still never reaches the trap-return. -/
theorem unknown_cause_halts_witness :
    _exception_handler 1000 ⟨0, 0, 0, 8⟩ = none := by
  exact unknown_cause_halts 1000 ⟨0, 0, 0, 8⟩ (by decide) (by decide)

/-- C7: for every recognised synchronous cause other than environment
call (`mcause ∈ {0,…,7}`: misaligned instruction/load/store address,
instruction/load/store access fault, illegal instruction, breakpoint),
the handler takes no action and falls through to the trap-return with
the machine state completely unchanged — in particular `mepc` still
holds the faulting instruction's address. -/
theorem defined_cause_falls_through (fuel : Nat) (s : CsrState)
    (hc : s.mcause ∈ ([0, 1, 2, 3, 4, 5, 6, 7] : List Nat)) :
    _exception_handler fuel s = some s := by
  simp only [List.mem_cons, List.not_mem_nil, or_false] at hc
  rcases hc with h | h | h | h | h | h | h | h <;>
    simp [_exception_handler, h, MCAUSE_INSTRUCTION_ADDRESS_MISALIGNED,
      MCAUSE_INSTRUCTION_ACCESS_FAULT, MCAUSE_ILLEGAL_INSTRUCTION,
      MCAUSE_BREAKPOINT, MCAUSE_LOAD_ADDRESS_MISALIGNED,
      MCAUSE_LOAD_ACCESS_FAULT, MCAUSE_STORE_ADDRESS_MISALIGNED,
      MCAUSE_STORE_ACCESS_FAULT, MCAUSE_MMODE_ECALL]

/-- C7 witness: an illegal-instruction trap (`mcause = 2`) resumes with
all registers unchanged. -/
theorem defined_cause_falls_through_witness :
    _exception_handler 3 ⟨17, 128, 2048, 2⟩ = some ⟨17, 128, 2048, 2⟩ := by
  exact defined_cause_falls_through 3 ⟨17, 128, 2048, 2⟩ (by decide)

/-! ## CSR bit-set helpers (startup assembly)

`global_enable_interrupts` executes a single
`csrrsi x0, CSR_MSTATUS, MSTATUS_MIE`, and
`enable_machine_timer_interrupt` a single `csrrs x0, CSR_MIE, t0` with
`t0 = MIE_MTIE`.  A csrrs/csrrsi instruction atomically ORs its bit
mask into the CSR; here that is one state transformation. -/

def MSTATUS_MIE : Nat := 1 <<< 3
def MIE_MTIE : Nat := 1 <<< 7

/-- Embedding of `global_enable_interrupts` (startup.S):
`csrrsi x0, CSR_MSTATUS, MSTATUS_MIE`. -/
def global_enable_interrupts (s : CsrState) : CsrState :=
  { s with mstatus := s.mstatus ||| MSTATUS_MIE }

/-- Embedding of `enable_machine_timer_interrupt` (startup.S):
`li t0, MIE_MTIE ; csrrs x0, CSR_MIE, t0`. -/
def enable_machine_timer_interrupt (s : CsrState) : CsrState :=
  { s with mie := s.mie ||| MIE_MTIE }

/-- C6: for every prior register contents, `global_enable_interrupts`
sets bit 3 of mstatus and leaves every other bit of mstatus — and all
other registers — bit-for-bit unchanged; `enable_machine_timer_interrupt`
sets bit 7 of mie and leaves every other bit of mie — and all other
registers — bit-for-bit unchanged.  Each is a single set-bits state
transformation (an OR with a one-bit mask), not a read-modify-write. -/
theorem enable_bits_spec (s : CsrState) :
    ((global_enable_interrupts s).mstatus.testBit 3 = true ∧
      (∀ i : Nat, i ≠ 3 →
        (global_enable_interrupts s).mstatus.testBit i = s.mstatus.testBit i) ∧
      (global_enable_interrupts s).mie = s.mie ∧
      (global_enable_interrupts s).mepc = s.mepc ∧
      (global_enable_interrupts s).mcause = s.mcause) ∧
    ((enable_machine_timer_interrupt s).mie.testBit 7 = true ∧
      (∀ i : Nat, i ≠ 7 →
        (enable_machine_timer_interrupt s).mie.testBit i = s.mie.testBit i) ∧
      (enable_machine_timer_interrupt s).mstatus = s.mstatus ∧
      (enable_machine_timer_interrupt s).mepc = s.mepc ∧
      (enable_machine_timer_interrupt s).mcause = s.mcause) := by
  have hmask3 : MSTATUS_MIE = 2 ^ 3 := rfl
  have hmask7 : MIE_MTIE = 2 ^ 7 := rfl
  refine ⟨⟨?_, fun i hi => ?_, rfl, rfl, rfl⟩, ⟨?_, fun i hi => ?_, rfl, rfl, rfl⟩⟩
  · show (s.mstatus ||| MSTATUS_MIE).testBit 3 = true
    simp [hmask3, Nat.testBit_or, Nat.testBit_two_pow_self]
    exact Or.inr (by decide)
  · show (s.mstatus ||| MSTATUS_MIE).testBit i = s.mstatus.testBit i
    simp [hmask3, Nat.testBit_or, Nat.testBit_two_pow_of_ne (Ne.symm hi)]
  · show (s.mie ||| MIE_MTIE).testBit 7 = true
    simp [hmask7, Nat.testBit_or, Nat.testBit_two_pow_self]
    exact Or.inr (by decide)
  · show (s.mie ||| MIE_MTIE).testBit i = s.mie.testBit i
    simp [hmask7, Nat.testBit_or, Nat.testBit_two_pow_of_ne (Ne.symm hi)]

/-- C6 witness: a register file pre-seeded with arbitrary other bits. -/
theorem enable_bits_spec_witness :
    (global_enable_interrupts ⟨0x55aa5501, 0x7070, 3, 9⟩).mstatus.testBit 3 = true ∧
    (global_enable_interrupts ⟨0x55aa5501, 0x7070, 3, 9⟩).mstatus.testBit 5 =
      (0x55aa5501 : Nat).testBit 5 ∧
    (enable_machine_timer_interrupt ⟨0x55aa5501, 0x7070, 3, 9⟩).mie.testBit 7 = true ∧
    (enable_machine_timer_interrupt ⟨0x55aa5501, 0x7070, 3, 9⟩).mie.testBit 12 =
      (0x7070 : Nat).testBit 12 := by
  have h := enable_bits_spec ⟨0x55aa5501, 0x7070, 3, 9⟩
  exact ⟨h.1.1, h.1.2.1 5 (by decide), h.2.1, h.2.2.1 12 (by decide)⟩

/-! ## Boot-time data copy (init_data.c `_initialise_data`)

The copy walks two `uint32_t*` pointers, so memory is modelled at the
granularity the code manipulates: a map from word addresses to 32-bit
word values.  `_data_load_address`, `_sdata` and `_edata` are the
linker-provided word addresses of the load image and of the runtime
range. -/

/-- Sequential word-copy loop:
`for (; data_ptr < &_edata;) { *data_ptr++ = *init_values_ptr++; }`,
unrolled on the remaining iteration count `n`. -/
def copyWords : Nat → Nat → Nat → (Nat → Nat) → (Nat → Nat)
  | 0, _, _, mem => mem
  | n + 1, src, dst, mem =>
    copyWords n (src + 1) (dst + 1) (fun a => if a = dst then mem src else mem a)

/-- Embedding of `_initialise_data` (init_data.c): if the load address
differs from the runtime start address, copy `edata - sdata` words from
the load image into `[sdata, edata)`; otherwise do nothing. -/
def _initialise_data (load sdata edata : Nat) (mem : Nat → Nat) : Nat → Nat :=
  if load ≠ sdata then copyWords (edata - sdata) load sdata mem else mem

theorem copyWords_frame (n : Nat) :
    ∀ (src dst : Nat) (mem : Nat → Nat) (a : Nat),
      (a < dst ∨ dst + n ≤ a) → copyWords n src dst mem a = mem a := by
  induction n with
  | zero => intro src dst mem a _; rfl
  | succ n ih =>
    intro src dst mem a ha
    show copyWords n (src + 1) (dst + 1) (fun x => if x = dst then mem src else mem x) a = mem a
    rw [ih (src + 1) (dst + 1) _ a (by omega)]
    have : a ≠ dst := by omega
    simp [this]

theorem copyWords_copies (n : Nat) :
    ∀ (src dst : Nat) (mem : Nat → Nat),
      (dst + n ≤ src ∨ src + n ≤ dst) →
      ∀ i : Nat, i < n → copyWords n src dst mem (dst + i) = mem (src + i) := by
  induction n with
  | zero => intro src dst mem _ i hi; omega
  | succ n ih =>
    intro src dst mem hdisj i hi
    show copyWords n (src + 1) (dst + 1) (fun x => if x = dst then mem src else mem x)
        (dst + i) = mem (src + i)
    match i with
    | 0 =>
      simp only [Nat.add_zero]
      rw [copyWords_frame n (src + 1) (dst + 1) _ dst (by omega)]
      simp
    | j + 1 =>
      have hj : j < n := by omega
      have := ih (src + 1) (dst + 1)
        (fun x => if x = dst then mem src else mem x) (by omega) j hj
      have harr : dst + (j + 1) = dst + 1 + j := by omega
      rw [harr, this]
      have hne : src + 1 + j ≠ dst := by omega
      simp only [hne, if_false]
      have harr2 : src + 1 + j = src + (j + 1) := by omega
      rw [harr2]

/-- C5: the boot-time data copy.  When the load address differs from the
runtime start address and the two word ranges are disjoint, exactly
`edata - sdata` words (the whole runtime range `[sdata, edata)`, i.e.
`4 * (edata - sdata)` bytes) are copied from the load image, after which
source and destination are word-for-word (hence byte-for-byte) equal,
and no address outside `[sdata, edata)` is modified; when the load
address and the runtime start coincide, no copy is performed and memory
is left completely unchanged. -/
theorem _initialise_data_spec (load sdata edata : Nat) (mem : Nat → Nat)
    (hne : load ≠ sdata)
    (hdisj : sdata + (edata - sdata) ≤ load ∨ load + (edata - sdata) ≤ sdata) :
    (_initialise_data sdata sdata edata mem = mem) ∧
    (∀ i : Nat, i < edata - sdata →
      _initialise_data load sdata edata mem (sdata + i) = mem (load + i) ∧
      _initialise_data load sdata edata mem (sdata + i) =
        _initialise_data load sdata edata mem (load + i)) ∧
    (∀ a : Nat, a < sdata ∨ edata ≤ a →
      _initialise_data load sdata edata mem a = mem a) := by
  have hrun : _initialise_data load sdata edata mem =
      copyWords (edata - sdata) load sdata mem := by
    simp [_initialise_data, hne]
  refine ⟨by simp [_initialise_data], fun i hi => ?_, fun a ha => ?_⟩
  · have hcopy := copyWords_copies (edata - sdata) load sdata mem
      (by omega) i hi
    have hsrc : copyWords (edata - sdata) load sdata mem (load + i) = mem (load + i) := by
      apply copyWords_frame
      omega
    rw [hrun, hcopy, hsrc]
    exact ⟨rfl, rfl⟩
  · rw [hrun]
    apply copyWords_frame
    omega

/-- C5 witness: a concrete copy of two words from load address 5 into
runtime range `[1, 3)`; destination equals source afterwards, and an
address outside the range is untouched. -/
theorem _initialise_data_spec_witness :
    (_initialise_data 1 1 3 (fun a => a * 10) = fun a => a * 10) ∧
    _initialise_data 5 1 3 (fun a => a * 10) (1 + 0) = (5 + 0) * 10 ∧
    _initialise_data 5 1 3 (fun a => a * 10) (1 + 1) =
      _initialise_data 5 1 3 (fun a => a * 10) (5 + 1) ∧
    _initialise_data 5 1 3 (fun a => a * 10) 0 = 0 := by
  have h := _initialise_data_spec 5 1 3 (fun a => a * 10) (by decide) (by omega)
  exact ⟨h.1, (h.2.1 0 (by omega)).1, (h.2.1 1 (by omega)).2, h.2.2 0 (by omega)⟩

/-! ## Trap vector table (vector.S `_vectors`, startup.S `_vector_table`)

Each line of the table is one 4-byte instruction: either an
unconditional jump `j <handler>` or a `nop`.  A slot is one list entry,
so "each entry is a single instruction" holds by construction of the
type. -/

/-- The handlers the table's jump instructions name. -/
inductive TrapTarget where
  | reset_handler
  | nmi_handler
  | exception_handler_target
  | software_isr
  | timer_isr_target
  | external_isr
  | setup_stack
  | main_entry
  deriving Repr, DecidableEq

/-- One 4-byte slot of a vector table: a single unconditional jump, or
a `nop` filler. -/
inductive VectorSlot where
  | jump (target : TrapTarget)
  | nop
  deriving Repr, DecidableEq

/-- Embedding of `_vectors` (toolchains/newlib/vector.S), one entry per
assembly line of the `.vectors` section. -/
def _vectors : List VectorSlot :=
  [.jump .reset_handler,
   .jump .nmi_handler,
   .jump .exception_handler_target,
   .nop,
   .nop,
   .jump .software_isr,
   .nop,
   .nop,
   .nop,
   .jump .timer_isr_target,
   .nop,
   .nop,
   .nop,
   .jump .external_isr]

/-- Embedding of `_vector_table` (c/startup.S), one entry per assembly
line; its reset slot jumps to `_setup_stack`. -/
def _vector_table : List VectorSlot :=
  [.jump .setup_stack,
   .jump .nmi_handler,
   .jump .exception_handler_target,
   .nop,
   .nop,
   .jump .software_isr,
   .nop,
   .nop,
   .nop,
   .jump .timer_isr_target,
   .nop,
   .nop,
   .nop,
   .jump .external_isr]

/-- The slot indices bound to a defined cause, per the hardware's fixed
cause-to-slot mapping used by the table (reset 0, NMI 1, synchronous
exception 2, software interrupt 5, timer interrupt 9, external
interrupt 13). -/
def boundSlots : List Nat := [0, 1, 2, 5, 9, 13]

/-- C8 counterexample: the vector table does not have 16 slots — both
assembly tables have exactly 14, so the claim as stated is false. -/
theorem vector_table_not_sixteen :
    _vectors.length ≠ 16 ∧ _vector_table.length ≠ 16 ∧
    _vectors.length = 14 ∧ _vector_table.length = 14 := by decide

/-- C8 (amended): the vector table is an ordered sequence of 14
fixed-width slots with entry 0 the reset vector; every slot bound to a
defined cause holds a single one-instruction unconditional jump to its
handler at the fixed cause-to-slot offset (NMI 1, synchronous exception
2, software interrupt 5, timer interrupt 9, external interrupt 13), and
every unused slot holds a `nop` instruction rather than being left
empty.  The same layout holds for the `_vector_table` variant, whose
reset slot jumps to the stack-setup code. -/
theorem vector_table_layout :
    _vectors.length = 14 ∧
    _vectors[0]? = some (.jump .reset_handler) ∧
    _vectors[1]? = some (.jump .nmi_handler) ∧
    _vectors[2]? = some (.jump .exception_handler_target) ∧
    _vectors[5]? = some (.jump .software_isr) ∧
    _vectors[9]? = some (.jump .timer_isr_target) ∧
    _vectors[13]? = some (.jump .external_isr) ∧
    ((List.range 14).all fun i =>
      boundSlots.contains i || (_vectors[i]? == some .nop)) = true ∧
    _vector_table.length = 14 ∧
    _vector_table[0]? = some (.jump .setup_stack) ∧
    _vector_table[1]? = some (.jump .nmi_handler) ∧
    _vector_table[2]? = some (.jump .exception_handler_target) ∧
    _vector_table[5]? = some (.jump .software_isr) ∧
    _vector_table[9]? = some (.jump .timer_isr_target) ∧
    _vector_table[13]? = some (.jump .external_isr) ∧
    ((List.range 14).all fun i =>
      boundSlots.contains i || (_vector_table[i]? == some .nop)) = true := by
  decide

/-! ## Boot sequence (vector.S `_reset_handler`)

The reset handler is a straight-line instruction sequence:
`la sp, __stacktop`, then (inside `.option push / .option norelax /
.option pop`) `la gp, __global_pointer$`, then
`call _initialise_data`, then `tail _start`.  Each assembly step is one
`BootStep`; the `tail` is a jump, so control never comes back to the
boot sequence.  `runBootChecked` executes the steps in order, checking
at each step the hard prerequisite the spec assigns to it, and stops
executing further steps once control has left the boot sequence. -/

/-- One step of the reset handler.  `set_gp` records whether linker
relaxation was disabled around the global-pointer load
(`.option norelax`). -/
inductive BootStep where
  | set_stack
  | set_gp (norelax : Bool)
  | copy_data
  | tail_entry
  deriving Repr, DecidableEq

/-- Embedding of `_reset_handler` (vector.S), one entry per instruction
of the handler. -/
def _reset_handler : List BootStep :=
  [.set_stack, .set_gp true, .copy_data, .tail_entry]

/-- The boot-relevant machine state: which bootstrap resources are
established, whether control is still inside the boot sequence, and
whether the application entry point has been entered. -/
structure BootState where
  stackSet : Bool
  gpSet : Bool
  gpNorelax : Bool
  dataCopied : Bool
  inBoot : Bool
  entered : Bool
  deriving Repr, DecidableEq

/-- The state at reset: nothing established, control in the boot
sequence. -/
def bootInit : BootState :=
  { stackSet := false, gpSet := false, gpNorelax := false,
    dataCopied := false, inBoot := true, entered := false }

/-- Effect of one boot step on the boot state.  `tail_entry` transfers
control out of the boot sequence (a tail jump, not a call). -/
def bootEffect : BootStep → BootState → BootState
  | .set_stack, s => { s with stackSet := true }
  | .set_gp b, s => { s with gpSet := true, gpNorelax := b }
  | .copy_data, s => { s with dataCopied := true }
  | .tail_entry, s => { s with inBoot := false, entered := true }

/-- The hard prerequisite of each step: the global pointer needs a
stack only conceptually, but calling the C routine `_initialise_data`
needs both the stack and the global pointer, and transferring control
to the application requires the full bootstrap. -/
def bootStepOk : BootStep → BootState → Bool
  | .set_stack, _ => true
  | .set_gp _, s => s.stackSet
  | .copy_data, s => s.stackSet && s.gpSet
  | .tail_entry, s => s.stackSet && s.gpSet && s.dataCopied

/-- Run a boot instruction sequence: steps execute in program order,
each checked against its prerequisite (`none` on violation); once
control has left the boot sequence no further step executes. -/
def runBootChecked : List BootStep → BootState → Option BootState
  | [], s => some s
  | step :: rest, s =>
    if s.inBoot then
      if bootStepOk step s then runBootChecked rest (bootEffect step s)
      else none
    else some s

theorem runBootChecked_of_left (l : List BootStep) (s : BootState)
    (h : s.inBoot = false) : runBootChecked l s = some s := by
  cases l with
  | nil => rfl
  | cons a rest => simp [runBootChecked, h]

/-- C9: the boot sequence performs its steps in strict order — stack
pointer, then global pointer with linker relaxation disabled, then the
initialized-data copy, then the tail jump to the application entry
point — with every step's hard prerequisite satisfied when it is
reached, ending with control transferred out of the boot sequence; and
the transfer never returns: whatever instructions follow, none of them
executes once control has left. -/
theorem reset_handler_spec :
    _reset_handler = [.set_stack, .set_gp true, .copy_data, .tail_entry] ∧
    runBootChecked _reset_handler bootInit =
      some { stackSet := true, gpSet := true, gpNorelax := true,
             dataCopied := true, inBoot := false, entered := true } ∧
    ∀ extra : List BootStep,
      runBootChecked (_reset_handler ++ extra) bootInit =
        runBootChecked _reset_handler bootInit := by
  refine ⟨rfl, by decide, fun extra => ?_⟩
  show runBootChecked
      (.set_stack :: .set_gp true :: .copy_data :: .tail_entry :: extra) bootInit =
    runBootChecked _reset_handler bootInit
  simp only [runBootChecked, bootInit, bootEffect, bootStepOk, _reset_handler,
    if_true, Bool.and_self, and_self]
  exact runBootChecked_of_left extra _ rfl

/-! ## newlib heap stub (newlib.c `_sbrk`)

`_sbrk` keeps a static `unsigned char *heap`, NULL until the first
call, which lazily initialises it to `&_end` (the linker symbol just
past the .bss section).  Each call returns the previous heap top and
bumps the heap top by `incr`, an `int` that may be negative or huge.
Pointers are 32-bit, so the bump wraps modulo `2 ^ 32`.  There is no
comparison against a stack limit or an end-of-memory bound anywhere in
the function and no error return path. -/

/-- The static state of `_sbrk`: the heap-top pointer, `none` while it
is still NULL. -/
structure SbrkState where
  heap : Option Nat
  deriving Repr, DecidableEq

/-- Embedding of `_sbrk` (newlib.c).  `endAddr` is the address of the
linker symbol `_end`.  Returns the pair (returned pointer, new static
state). -/
def _sbrk (endAddr : Nat) (incr : Int) (st : SbrkState) : Nat × SbrkState :=
  let heap0 := st.heap.getD endAddr
  let prev_heap := heap0
  let heap1 := (((heap0 : Int) + incr) % (2 ^ 32 : Int)).toNat
  (prev_heap, { heap := some heap1 })

/-- Iterate `_sbrk` over a whole call sequence, collecting every
returned pointer. -/
def sbrkRun (endAddr : Nat) : List Int → SbrkState → List Nat × SbrkState
  | [], st => ([], st)
  | incr :: rest, st =>
    ((_sbrk endAddr incr st).1 :: (sbrkRun endAddr rest (_sbrk endAddr incr st).2).1,
      (sbrkRun endAddr rest (_sbrk endAddr incr st).2).2)

theorem sbrkRun_length (endAddr : Nat) (incrs : List Int) :
    ∀ st : SbrkState, (sbrkRun endAddr incrs st).1.length = incrs.length := by
  induction incrs with
  | nil => intro st; rfl
  | cons incr rest ih =>
    intro st
    show ((_sbrk endAddr incr st).1 ::
        (sbrkRun endAddr rest (_sbrk endAddr incr st).2).1).length = rest.length + 1
    simp [ih]

/-- C10: for every static state (hence every prior call sequence) and
every increment — negative and huge values included — `_sbrk incr`
returns the heap-top pointer from before the call and advances the heap
top by exactly `incr` (exactly, whenever the 32-bit pointer arithmetic
does not wrap), with no bounds check against the stack or the end of
memory; and it never returns an error indication: every call of any
call sequence produces a pointer. -/
theorem sbrk_spec (endAddr : Nat) (incr : Int) (st : SbrkState)
    (hlo : 0 ≤ (st.heap.getD endAddr : Int) + incr)
    (hhi : (st.heap.getD endAddr : Int) + incr < 2 ^ 32) :
    (_sbrk endAddr incr st).1 = st.heap.getD endAddr ∧
    (_sbrk endAddr incr st).2.heap =
      some (((st.heap.getD endAddr : Int) + incr).toNat) ∧
    ((_sbrk endAddr incr st).2.heap.getD endAddr : Int) =
      ((_sbrk endAddr incr st).1 : Int) + incr ∧
    ∀ incrs : List Int,
      (sbrkRun endAddr incrs st).1.length = incrs.length := by
  have hmod : ((st.heap.getD endAddr : Int) + incr) % (2 ^ 32 : Int) =
      (st.heap.getD endAddr : Int) + incr :=
    Int.emod_eq_of_lt hlo hhi
  refine ⟨rfl, ?_, ?_, fun incrs => sbrkRun_length endAddr incrs st⟩
  · show some ((((st.heap.getD endAddr : Int) + incr) % (2 ^ 32 : Int)).toNat) =
      some (((st.heap.getD endAddr : Int) + incr).toNat)
    rw [hmod]
  · show (((((st.heap.getD endAddr : Int) + incr) % (2 ^ 32 : Int)).toNat : Int)) =
      ((st.heap.getD endAddr : Nat) : Int) + incr
    rw [hmod, Int.toNat_of_nonneg hlo]

/-- C10 witness: a fresh state (NULL heap) with a negative increment;
the call still succeeds, returns `_end`, and moves the top below
`_end`. -/
theorem sbrk_spec_witness :
    (_sbrk 4096 (-16) ⟨none⟩).1 = 4096 ∧
    (_sbrk 4096 (-16) ⟨none⟩).2.heap = some 4080 ∧
    (sbrkRun 4096 [-16, 100000000] ⟨none⟩).1.length = 2 := by
  have h := sbrk_spec 4096 (-16) ⟨none⟩ (by decide) (by decide)
  exact ⟨h.1, h.2.1, h.2.2.2 [-16, 100000000]⟩
